import Mathlib

/-!
Verification development for the job-role retrieval and classification
index (`JDIndex`) of the Smart-Resume-Viewer repository
(`src/components/jd_index.py`).

The Python source is shallowly embedded: Python strings are lists of
Unicode code points (`PyStr`), arbitrary corpus cell values are `PyObj`
(a string or a non-string such as a NaN float), fallible operations
return `Except`, and the numeric routines work over `ℚ`.

The facade composes three external libraries (pandas/langdetect for
ingestion, scikit-learn for TF-IDF and the SGD classifier, faiss for the
flat L2 index).  Library internals are not part of the repository; where
a claim depends on them they are modelled from the specification's
component contracts (sections 4.3 to 4.5), with the model noted in the
corresponding doc comment.  Everything else is translated directly from
`jd_index.py`.
-/

/-- Python string: a list of Unicode code points (a Python `str` may hold
lone surrogates, which Lean's `Char` cannot, hence `List Nat`). -/
abbrev PyStr := List Nat

/-- Python value stored in a corpus cell: either a string or a non-string
object (e.g. a NaN float for a missing cell).  The `other` tag stands for
the identity of the non-string object, which `_clean_text` never inspects. -/
inductive PyObj where
  | pstr (s : PyStr)
  | other (tag : Nat)
deriving DecidableEq, Repr

/-- Code point encodable by Python's UTF-8 encoder: any Unicode scalar
value, i.e. below 0x110000 and not a surrogate (0xD800 to 0xDFFF).
Encoding with errors="ignore" drops exactly the non-encodable points. -/
def isEncodable (c : Nat) : Bool :=
  decide (c < 0xD800) || (decide (0xE000 ≤ c) && decide (c < 0x110000))

/-- UTF-8 byte sequence of one encodable code point. -/
def utf8EncodeChar (c : Nat) : List Nat :=
  if c < 0x80 then [c]
  else if c < 0x800 then [0xC0 + c / 64, 0x80 + c % 64]
  else if c < 0x10000 then
    [0xE0 + c / 4096, 0x80 + c / 64 % 64, 0x80 + c % 64]
  else
    [0xF0 + c / 0x40000, 0x80 + c / 4096 % 64, 0x80 + c / 64 % 64, 0x80 + c % 64]

/-- Embedding of `x.encode("utf-8", errors="ignore")`: non-encodable code
points are dropped, the rest are encoded. -/
def utf8Encode (s : PyStr) : List Nat :=
  (s.filter isEncodable).flatMap utf8EncodeChar

/-- Continuation byte test (0x80 to 0xBF). -/
def isCont (b : Nat) : Bool := decide (0x80 ≤ b) && decide (b < 0xC0)

/-- State of the byte-at-a-time UTF-8 decoding automaton: number of
continuation bytes still expected, the partial code point, the decoded
code points in reverse order, and a validity flag. -/
structure Utf8St where
  pending : Nat
  acc : Nat
  out : List Nat
  ok : Bool
deriving DecidableEq, Repr

/-- One byte of UTF-8 decoding.  Lead bytes open a 1 to 4 byte sequence,
continuation bytes extend the partial code point; a surrogate code point
or a malformed byte invalidates the state. -/
def utf8Step (st : Utf8St) (b : Nat) : Utf8St :=
  if st.ok = false then st
  else if st.pending = 0 then
    if b < 0x80 then { st with out := b :: st.out }
    else if b < 0xC0 then { st with ok := false }
    else if b < 0xE0 then { st with pending := 1, acc := b - 0xC0 }
    else if b < 0xF0 then { st with pending := 2, acc := b - 0xE0 }
    else if b < 0xF8 then { st with pending := 3, acc := b - 0xF0 }
    else { st with ok := false }
  else if isCont b then
    if st.pending = 1 then
      if 0xD800 ≤ st.acc * 64 + (b - 0x80) ∧ st.acc * 64 + (b - 0x80) < 0xE000 then
        { st with ok := false }
      else { st with pending := 0, acc := 0, out := (st.acc * 64 + (b - 0x80)) :: st.out }
    else { st with pending := st.pending - 1, acc := st.acc * 64 + (b - 0x80) }
  else { st with ok := false }

/-- UTF-8 decoder (embedding of `bytes.decode("utf-8")`): `none` on a
malformed byte sequence, mirroring a raised `UnicodeDecodeError`.  The
decoder accepts every byte string the encoder produces and rejects
truncated sequences, stray bytes and surrogates; the exhaustive overlong
checks of CPython's strict decoder are not needed by any verified claim
because `_clean_text` only ever decodes the encoder's own output. -/
def utf8Decode (l : List Nat) : Option PyStr :=
  let st := l.foldl utf8Step ⟨0, 0, [], true⟩
  if st.ok ∧ st.pending = 0 then some st.out.reverse else none

namespace JDIndex

/-- Embedding of `JDIndex._clean_text` (jd_index.py lines 38 to 42): a
string is re-encoded as `x.encode("utf-8", errors="ignore").decode("utf-8")`,
any non-string becomes the empty string.  The decoder cannot fail on the
encoder's output (proved below), so the `getD` default is never taken. -/
def cleanText : PyObj → PyStr
  | .pstr s => (utf8Decode (utf8Encode s)).getD []
  | .other _ => []

end JDIndex

/-- Running the decoding automaton over the encoding of one encodable
code point pushes exactly that code point onto the output. -/
theorem foldl_utf8EncodeChar (c : Nat) (hc : isEncodable c = true) (out : List Nat) :
    (utf8EncodeChar c).foldl utf8Step ⟨0, 0, out, true⟩ = ⟨0, 0, c :: out, true⟩ := by
  simp only [isEncodable, Bool.or_eq_true, Bool.and_eq_true, decide_eq_true_eq] at hc
  by_cases h1 : c < 0x80
  · simp [utf8EncodeChar, h1, utf8Step]
  · by_cases h2 : c < 0x800
    · have ha : ¬ (0xC0 + c / 64 < 0x80) := by omega
      have hb : ¬ (0xC0 + c / 64 < 0xC0) := by omega
      have hd : 0xC0 + c / 64 < 0xE0 := by omega
      have he : isCont (0x80 + c % 64) = true := by
        simp only [isCont, Bool.and_eq_true, decide_eq_true_eq]; omega
      have hv : c / 64 * 64 + c % 64 = c := by omega
      have hs : ¬ (0xD800 ≤ c ∧ c < 0xE000) := by omega
      simp [utf8EncodeChar, h1, h2, utf8Step, ha, hb, hd, he, hv, hs]
    · by_cases h3 : c < 0x10000
      · have ha : ¬ (0xE0 + c / 4096 < 0x80) := by omega
        have hb : ¬ (0xE0 + c / 4096 < 0xC0) := by omega
        have hd : ¬ (0xE0 + c / 4096 < 0xE0) := by omega
        have he : 0xE0 + c / 4096 < 0xF0 := by omega
        have hc1 : isCont (0x80 + c / 64 % 64) = true := by
          simp only [isCont, Bool.and_eq_true, decide_eq_true_eq]; omega
        have hc2 : isCont (0x80 + c % 64) = true := by
          simp only [isCont, Bool.and_eq_true, decide_eq_true_eq]; omega
        have hv1 : c / 4096 * 64 + c / 64 % 64 = c / 64 := by omega
        have hv2 : c / 64 * 64 + c % 64 = c := by omega
        have hs : ¬ (0xD800 ≤ c ∧ c < 0xE000) := by omega
        simp [utf8EncodeChar, h1, h2, h3, utf8Step, ha, hb, hd, he, hc1, hc2, hv1, hv2, hs]
      · have h4 : c < 0x110000 := by omega
        have ha : ¬ (0xF0 + c / 0x40000 < 0x80) := by omega
        have hb : ¬ (0xF0 + c / 0x40000 < 0xC0) := by omega
        have hd : ¬ (0xF0 + c / 0x40000 < 0xE0) := by omega
        have he : ¬ (0xF0 + c / 0x40000 < 0xF0) := by omega
        have hf : 0xF0 + c / 0x40000 < 0xF8 := by omega
        have hc1 : isCont (0x80 + c / 4096 % 64) = true := by
          simp only [isCont, Bool.and_eq_true, decide_eq_true_eq]; omega
        have hc2 : isCont (0x80 + c / 64 % 64) = true := by
          simp only [isCont, Bool.and_eq_true, decide_eq_true_eq]; omega
        have hc3 : isCont (0x80 + c % 64) = true := by
          simp only [isCont, Bool.and_eq_true, decide_eq_true_eq]; omega
        have hv1 : c / 0x40000 * 64 + c / 4096 % 64 = c / 4096 := by omega
        have hv2 : c / 4096 * 64 + c / 64 % 64 = c / 64 := by omega
        have hv3 : c / 64 * 64 + c % 64 = c := by omega
        have hs : ¬ (0xD800 ≤ c ∧ c < 0xE000) := by omega
        simp [utf8EncodeChar, h1, h2, h3, h4, utf8Step, ha, hb, hd, he, hf,
          hc1, hc2, hc3, hv1, hv2, hv3, hs]

/-- Running the automaton over a whole ignore-encoded string accumulates
exactly the encodable code points, in reverse, and stays valid. -/
theorem foldl_utf8Encode (s : PyStr) (out : List Nat) :
    (utf8Encode s).foldl utf8Step ⟨0, 0, out, true⟩ =
      ⟨0, 0, (s.filter isEncodable).reverse ++ out, true⟩ := by
  induction s generalizing out with
  | nil => simp [utf8Encode]
  | cons c cs ih =>
    by_cases hc : isEncodable c = true
    · have hsplit : utf8Encode (c :: cs) = utf8EncodeChar c ++ utf8Encode cs := by
        simp [utf8Encode, hc]
      rw [hsplit, List.foldl_append, foldl_utf8EncodeChar c hc, ih,
        List.filter_cons_of_pos hc]
      simp
    · have hsplit : utf8Encode (c :: cs) = utf8Encode cs := by
        simp [utf8Encode, hc]
      rw [hsplit, ih, List.filter_cons_of_neg (by simpa using hc)]

/-- Roundtrip of a whole string: decoding the ignore-encoded bytes
succeeds and yields exactly the encodable code points, in order. -/
theorem utf8Decode_utf8Encode (s : PyStr) :
    utf8Decode (utf8Encode s) = some (s.filter isEncodable) := by
  simp [utf8Decode, foldl_utf8Encode s []]

/-- Language detector collaborator (the langdetect library): given text it
returns a language code, or fails (e.g. on empty or ambiguous input).  The
repository fixes the detector seed, so one detector function per process. -/
abbrev Detector := PyStr → Except Unit PyStr

/-- Code points of the language code string en. -/
def enCode : PyStr := [101, 110]

namespace JDIndex

/-- Embedding of `JDIndex._is_english` (jd_index.py lines 44 to 48): the
bare `try/except` maps any detector failure to `False`; otherwise the
result is the comparison of the detected code with en. -/
def isEnglish (d : Detector) (text : PyStr) : Bool :=
  match d text with
  | .ok lang => decide (lang = enCode)
  | .error _ => false

end JDIndex

/-- Corpus row as read from the CSV, restricted to the two columns the
core uses (`job_position`, `relevant_skills`); other columns are carried
along by pandas but never read by `JDIndex`. -/
structure Row where
  job_position : PyObj
  relevant_skills : PyObj
deriving DecidableEq, Repr

/-- Corpus row after `_clean_text` has been mapped over its text cells. -/
structure CleanRow where
  job_position : PyStr
  relevant_skills : PyStr
deriving DecidableEq, Repr

/-- One chunk produced by `pd.read_csv(csv_path, chunksize=chunk_size)`.
The flag `hasRequired` embeds the test on line 56 of jd_index.py, namely
whether both `job_position` and `relevant_skills` are among the columns
of the chunk.  Text columns are modelled as pandas object dtype, which is
what `read_csv` produces for string data. -/
structure Chunk where
  hasRequired : Bool
  rows : List Row
deriving DecidableEq, Repr

/-- Build-time failure of `build_from_csv`. `emptyCorpus` is the
ValueError raised on line 64 (No valid data found in CSV after cleaning
and filtering English text); `emptyVocabulary` is the ValueError raised
by `TfidfVectorizer.fit_transform` when the corpus yields no vocabulary
term at all (in particular when the corpus has zero rows). -/
inductive BuildErr where
  | emptyCorpus
  | emptyVocabulary
deriving DecidableEq, Repr

namespace JDIndex

/-- Mapping of `_clean_text` over the text cells of a row (jd_index.py
lines 54 to 55). -/
def cleanRow (r : Row) : CleanRow :=
  ⟨cleanText r.job_position, cleanText r.relevant_skills⟩

/-- Rows of one chunk that survive cleaning and the language filter
(jd_index.py lines 57 to 60): keep a row exactly when both cleaned
required fields are detected as English. -/
def chunkSurvivors (d : Detector) (c : Chunk) : List CleanRow :=
  (c.rows.map cleanRow).filter fun r =>
    isEnglish d r.job_position && isEnglish d r.relevant_skills

/-- Per-chunk step of the ingestion loop (jd_index.py lines 53 to 61):
a chunk having both required columns contributes its filtered rows and is
appended to `all_chunks`; a chunk missing a required column is not
appended at all. -/
def processChunk (d : Detector) (c : Chunk) : Option (List CleanRow) :=
  if c.hasRequired then some (chunkSurvivors d c) else none

/-- Embedding of the chunked ingestion of `build_from_csv` (jd_index.py
lines 52 to 66): collect the per-chunk results into `all_chunks`, raise
the empty-corpus ValueError when `all_chunks` is empty, and otherwise
concatenate in order (`pd.concat(all_chunks, ignore_index=True)`).  Note
the guard tests the list of surviving chunks, not the number of surviving
rows. -/
def ingestChunks (d : Detector) (chunks : List Chunk) : Except BuildErr (List CleanRow) :=
  let all_chunks := chunks.filterMap (processChunk d)
  if all_chunks.isEmpty then .error .emptyCorpus else .ok all_chunks.flatten

end JDIndex

/-- Fitted TF-IDF vectorizer state: the frozen vocabulary (the term of
column j is entry j), the per-term IDF weights, and the analyzer that
splits text into n-gram tokens (lowercasing, English stop-word removal
and the 1 to 2 n-gram range of the `TfidfVectorizer` construction are
folded into this function).  Modelled from the spec, section 4.3: the
vectorizer itself is scikit-learn library state, not repository code. -/
structure FittedVectorizer where
  vocab : List PyStr
  idf : List ℚ
  analyze : PyStr → List PyStr

/-- Raw TF-IDF weights of a token stream against a fitted vocabulary:
entry j is the token count of vocabulary term j times its IDF weight.
Modelled from the spec, section 4.3; the L2 row normalization applied by
scikit-learn is a positive per-row scaling that no verified claim
depends on, and is omitted. -/
def tfWeights (fv : FittedVectorizer) (toks : List PyStr) : List ℚ :=
  (fv.vocab.zip fv.idf).map fun p => ((toks.count p.1 : ℚ) * p.2)

/-- Query-time projection `vectorizer.transform([text])` of one text
through the frozen vocabulary and IDF state. -/
def transform (fv : FittedVectorizer) (text : PyStr) : List ℚ :=
  tfWeights fv (fv.analyze text)

/-- Fitted `SGDClassifier` state: learned classes (sorted unique training
labels), one weight vector per class and one intercept per class.
Modelled from the spec, section 4.4: the classifier is scikit-learn
library state, not repository code. -/
structure SGDClf where
  classes : List PyStr
  weights : List (List ℚ)
  intercepts : List ℚ

/-- Dot product of two rational vectors of equal dimension. -/
def dot (a b : List ℚ) : ℚ := ((a.zip b).map fun p => p.1 * p.2).sum

/-- Per-class linear scores of one row (`decision_function`). -/
def decisionFunction (clf : SGDClf) (x : List ℚ) : List ℚ :=
  (clf.weights.zip clf.intercepts).map fun p => dot p.1 x + p.2

/-- Embedding of `SGDClassifier.predict_proba` for log loss in the
one-vs-rest multiclass form, for one row, parameterized by the logistic
squashing function `sig` (expit): squash each per-class score, then
normalize to sum 1; a row whose squashed scores sum to zero becomes the
uniform distribution, exactly scikit-learn's documented corner-case
workaround.  Modelled from the spec, section 4.4. -/
def predictProba (sig : ℚ → ℚ) (clf : SGDClf) (x : List ℚ) : List ℚ :=
  let p := (decisionFunction clf x).map sig
  let s := p.sum
  if s = 0 then p.map fun _ => 1 / (clf.classes.length : ℚ)
  else p.map (· / s)

/-- Tail of the first-maximum scan: fold over the remaining entries,
keeping the earliest index attaining the running maximum. -/
def argmaxAux : List ℚ → Nat → (Nat × ℚ) → (Nat × ℚ)
  | [], _, acc => acc
  | q :: qs, i, acc =>
    if acc.2 < q then argmaxAux qs (i + 1) (i, q) else argmaxAux qs (i + 1) acc

/-- Index and value of the first maximal entry of a list, as computed by
`np.argmax` (index 0 on an empty list never arises: the caller guards). -/
def argmaxPair (l : List ℚ) : Nat × ℚ :=
  match l with
  | [] => (0, 0)
  | q :: qs => argmaxAux qs 1 (0, q)

/-- Embedding of `np.argmax`: index of the first maximal entry. -/
def argmax (l : List ℚ) : Nat := (argmaxPair l).1

/-- Squared L2 distance between two vectors, the metric reported by the
faiss `IndexFlatL2` index. -/
def l2sq (a b : List ℚ) : ℚ := ((a.zip b).map fun p => (p.1 - p.2) ^ 2).sum

/-- Comparison used to rank search hits: strictly smaller distance first,
ties broken by the smaller (earlier) row index. -/
def rankLe (p q : Nat × ℚ) : Prop :=
  p.2 < q.2 ∨ (p.2 = q.2 ∧ p.1 ≤ q.1)

instance : DecidableRel rankLe := fun p q => by unfold rankLe; infer_instance

instance : IsTrans (Nat × ℚ) rankLe where
  trans a b c hab hbc := by
    rcases hab with h1 | ⟨h1, h2⟩ <;> rcases hbc with h3 | ⟨h3, h4⟩
    · exact Or.inl (lt_trans h1 h3)
    · exact Or.inl (h3 ▸ h1)
    · exact Or.inl (h1 ▸ h3)
    · exact Or.inr ⟨h1.trans h3, le_trans h2 h4⟩

instance : IsTotal (Nat × ℚ) rankLe where
  total a b := by
    rcases lt_trichotomy a.2 b.2 with h | h | h
    · exact Or.inl (Or.inl h)
    · rcases le_total a.1 b.1 with h2 | h2
      · exact Or.inl (Or.inr ⟨h, h2⟩)
      · exact Or.inr (Or.inr ⟨h.symm, h2⟩)
    · exact Or.inr (Or.inl h)

/-- Embedding of the flat exact search `index.search(vec, k)` over the
stored row vectors: rank every row by squared L2 distance to the query,
ascending, ties by original row order, and return the first k hits.
Modelled from the spec, section 4.5: faiss is an external library; its
brute-force `IndexFlatL2` realizes exactly this contract. -/
def faissSearch (xb : List (List ℚ)) (q : List ℚ) (k : Nat) : List (Nat × ℚ) :=
  (List.insertionSort rankLe ((xb.enum).map fun p => (p.1, l2sq q p.2))).take k

/-- Facade state of a `JDIndex` instance, mirroring the fields assigned
in `__init__`, `build_from_csv` and `load`.  A `none` marks the Python
field holding `None` (or, for `vectorizer`, an unfitted
`TfidfVectorizer`: the constructed-but-unfitted object carries no fitted
state, and using it raises `NotFittedError`). -/
structure JDIndexState where
  max_features : Nat
  vectorizer : Option FittedVectorizer
  role_match_clf : Option SGDClf
  index : Option (List (List ℚ))
  X_dense : Option (List (List ℚ))
  y_positions : Option (List PyStr)
  classes_ : Option (List PyStr)

/-- Failure surfaced by the serving methods.  `notFitted` is
scikit-learn's `NotFittedError` from transforming through an unfitted
vectorizer (the not-ready failure of the spec); `noneTypeCrash` is an
`AttributeError`/`TypeError` from dereferencing a `None` field, the
null-pointer-style crash the spec rules out. -/
inductive PyErr where
  | notFitted
  | noneTypeCrash
  | indexError
  | valueError
deriving DecidableEq, Repr

namespace JDIndex

/-- Embedding of `JDIndex.__init__` (jd_index.py lines 25 to 36): every
fitted field starts as `None`, the vectorizer starts unfitted. -/
def init (max_features : Nat) : JDIndexState :=
  ⟨max_features, none, none, none, none, none, none⟩

/-- Embedding of `JDIndex.query` (jd_index.py lines 133 to 136): project
the text through the vectorizer, search the flat index, and resolve row
indices through `y_positions`.  Statement order follows the source: the
transform runs (and can fail) before the index or labels are touched. -/
def queryE (st : JDIndexState) (text : PyStr) (k : Nat) :
    Except PyErr (List (PyStr × ℚ)) := do
  let fv ← match st.vectorizer with
    | none => Except.error .notFitted
    | some fv => Except.ok fv
  let vec := transform fv text
  let xb ← match st.index with
    | none => Except.error .noneTypeCrash
    | some xb => Except.ok xb
  let hits := faissSearch xb vec k
  let y ← match st.y_positions with
    | none => Except.error .noneTypeCrash
    | some y => Except.ok y
  hits.mapM fun p =>
    match y.get? p.1 with
    | some lbl => Except.ok (lbl, p.2)
    | none => Except.error .indexError

/-- Embedding of `JDIndex.match_role` (jd_index.py lines 138 to 142):
transform the text, take per-class probabilities, and return the argmax
label with its probability.  The transform runs (and can fail) before
the classifier is touched; `np.argmax` on an empty probability row would
raise, hence the guard. -/
def matchRoleE (sig : ℚ → ℚ) (st : JDIndexState) (text : PyStr) :
    Except PyErr (PyStr × ℚ) := do
  let fv ← match st.vectorizer with
    | none => Except.error .notFitted
    | some fv => Except.ok fv
  let vec := transform fv text
  let clf ← match st.role_match_clf with
    | none => Except.error .noneTypeCrash
    | some clf => Except.ok clf
  let proba := predictProba sig clf vec
  if proba.isEmpty then Except.error .valueError
  else
    let idx := argmax proba
    Except.ok (clf.classes.getD idx [], proba.getD idx 0)

end JDIndex

/-- JSON metadata summary written next to the model artifacts
(jd_index.py lines 98 to 105). -/
structure Metadata where
  total_records : Nat
  unique_roles : Nat
  roles : List PyStr

/-- Artifact bundle persisted by `build_from_csv` and read back by
`load`: vectorizer.pkl, role_match_clf.pkl, X_dense.npy, y_positions.npy
and model_metadata.json.  Serialization (joblib/np.save) is faithful, so
the bundle holds the objects themselves. -/
structure Artifacts where
  vectorizer : FittedVectorizer
  role_match_clf : SGDClf
  xDense : List (List ℚ)
  yPositions : List PyStr
  metadata : Metadata

/-- Lexicographic order on code-point lists, the string order `np.unique`
sorts by. -/
def listLexLe : List Nat → List Nat → Bool
  | [], _ => true
  | _ :: _, [] => false
  | a :: as, b :: bs => if a < b then true else if b < a then false else listLexLe as bs

/-- Embedding of `np.unique` on a label array: sorted distinct values. -/
def npUnique (l : List PyStr) : List PyStr :=
  List.insertionSort (fun a b => listLexLe a b = true) l.dedup

namespace JDIndex

/-- Embedding of the artifact dump of `build_from_csv` (jd_index.py lines
92 to 105): the five files written from the fitted vectorizer, the
fitted classifier, the dense matrix, the label array and the metadata
computed from the record count and the class set. -/
def saveArtifacts (fv : FittedVectorizer) (clf : SGDClf) (xd : List (List ℚ))
    (y : List PyStr) (classes : List PyStr) : Artifacts :=
  ⟨fv, clf, xd, y, ⟨y.length, classes.length, classes⟩⟩

/-- Embedding of `JDIndex.load` (jd_index.py lines 112 to 131): read the
four fitted artifacts back, take `classes_` from the classifier (a
fitted `SGDClassifier` always exposes `classes_`, so the `np.unique`
fallback branch is not taken for artifacts written by `build_from_csv`),
and rebuild the flat index by adding the dense matrix to a fresh
`IndexFlatL2`. -/
def loadState (st : JDIndexState) (a : Artifacts) : JDIndexState :=
  { st with
    vectorizer := some a.vectorizer
    role_match_clf := some a.role_match_clf
    X_dense := some a.xDense
    y_positions := some a.yPositions
    classes_ := some a.role_match_clf.classes
    index := some a.xDense }

end JDIndex

/-- Embedding of `TfidfVectorizer.fit_transform` over the skill texts:
build the vocabulary from the analyzed corpus, fail with the
empty-vocabulary ValueError when no term exists (in particular on a
zero-row corpus), otherwise weight every document against the fitted
state.  Modelled from the spec, section 4.3 (scikit-learn library code):
`idfOf n df` abstracts the smoothed logarithmic IDF of a term with
document frequency df in n documents, and the `max_features` frequency
cap is omitted, as no verified claim depends on either constant. -/
def fitTfidf (analyze : PyStr → List PyStr) (idfOf : Nat → Nat → ℚ)
    (docs : List PyStr) : Except BuildErr (FittedVectorizer × List (List ℚ)) :=
  let vocab := (docs.flatMap analyze).dedup
  if vocab.isEmpty then .error .emptyVocabulary
  else
    let fv : FittedVectorizer :=
      ⟨vocab,
       vocab.map fun tok => idfOf docs.length (docs.countP fun dcc => decide (tok ∈ analyze dcc)),
       analyze⟩
    .ok (fv, docs.map fun dcc => tfWeights fv (analyze dcc))

namespace JDIndex

/-- Embedding of `JDIndex.build_from_csv` (jd_index.py lines 50 to 110)
on the default `sample_size=None` path: ingest the chunked corpus, fit
the TF-IDF space over `relevant_skills`, train the classifier over the
`job_position` labels with `classes=np.unique(y)` (the five `partial_fit`
epochs of SGD training are abstracted as `clfFit`, scikit-learn library
code), assemble the flat index over the dense matrix, and persist the
artifact bundle.  Cleaned cells are already strings, so the `fillna`
defaults never fire.  A build error aborts before any artifact is
produced. -/
def buildFromCsv (max_features : Nat) (analyze : PyStr → List PyStr)
    (idfOf : Nat → Nat → ℚ)
    (clfFit : List (List ℚ) → List PyStr → List PyStr → SGDClf)
    (d : Detector) (chunks : List Chunk) :
    Except BuildErr (JDIndexState × Artifacts) := do
  let rows ← ingestChunks d chunks
  let docs := rows.map (·.relevant_skills)
  let fitted ← fitTfidf analyze idfOf docs
  let y := rows.map (·.job_position)
  let classes := npUnique y
  let clf := clfFit fitted.2 y classes
  let st : JDIndexState :=
    ⟨max_features, some fitted.1, some clf, some fitted.2, some fitted.2, some y, some classes⟩
  pure (st, saveArtifacts fitted.1 clf fitted.2 y classes)

/-- State-passing embedding of `JDIndex.query`: the method body of lines
133 to 136 contains no assignment to any field of `self`, so the state
handed back is the state passed in. -/
def queryS (st : JDIndexState) (text : PyStr) (k : Nat) :
    Except PyErr (List (PyStr × ℚ)) × JDIndexState :=
  (queryE st text k, st)

/-- State-passing embedding of `JDIndex.match_role`: the method body of
lines 138 to 142 contains no assignment to any field of `self`, so the
state handed back is the state passed in. -/
def matchRoleS (sig : ℚ → ℚ) (st : JDIndexState) (text : PyStr) :
    Except PyErr (PyStr × ℚ) × JDIndexState :=
  (matchRoleE sig st text, st)

end JDIndex

/-- C10: the cleaner `_clean_text` is total and never raises: every
non-string input (a NaN cell, a float, any non-str object) cleans to the
empty string, and a string input is returned re-encoded with exactly the
code points that UTF-8 cannot encode (the invalid byte producers)
dropped. -/
theorem c10_cleanText_total :
    (∀ tag : Nat, JDIndex.cleanText (.other tag) = []) ∧
    (∀ s : PyStr, JDIndex.cleanText (.pstr s) = s.filter isEncodable) := by
  refine ⟨fun _ => rfl, fun s => ?_⟩
  simp [JDIndex.cleanText, utf8Decode_utf8Encode s]

/-- C8: whenever the underlying language detector fails on an input, the
filter `_is_english` returns false; the failure is absorbed by the bare
`try/except` and never reaches the caller (the embedding is a total
Bool-valued function). -/
theorem c8_isEnglish_detector_failure (d : Detector) (t : PyStr) (e : Unit)
    (h : d t = .error e) : JDIndex.isEnglish d t = false := by
  simp [JDIndex.isEnglish, h]

/-- Witness for C8 at a concrete always-failing detector and input. -/
theorem c8_isEnglish_detector_failure_witness :
    (fun _ : PyStr => (Except.error () : Except Unit PyStr)) [104, 105] = .error () ∧
    JDIndex.isEnglish (fun _ => .error ()) [104, 105] = false :=
  ⟨rfl, c8_isEnglish_detector_failure (fun _ => .error ()) [104, 105] () rfl⟩

/-- C1: from the Unbuilt state (freshly constructed, neither built nor
loaded), both `query` and `match_role` fail with the not-ready error
(scikit-learn's `NotFittedError`, raised by the unfitted vectorizer on
the first statement of either method) and not with the
null-pointer-style `None`-dereference crash. -/
theorem c1_unbuilt_not_ready (mf : Nat) (sig : ℚ → ℚ) (t : PyStr) (k : Nat) :
    JDIndex.queryE (JDIndex.init mf) t k = .error .notFitted ∧
    JDIndex.matchRoleE sig (JDIndex.init mf) t = .error .notFitted ∧
    PyErr.notFitted ≠ PyErr.noneTypeCrash :=
  ⟨rfl, rfl, by decide⟩

/-- C2: failing input for the empty-corpus rejection.  With a detector
failing on every text (so every row fails the language filter) and a
single chunk carrying both required columns, zero rows survive, yet
ingestion returns an empty table instead of raising the empty-corpus
error: the guard on line 63 of jd_index.py tests the list of surviving
chunks, which still holds the (emptied) chunk.  The build then aborts
inside vectorizer fitting with the generic empty-vocabulary error, so no
artifact is written, but the error raised is not the empty-corpus one
the claim requires. -/
theorem c2_zero_rows_without_emptyCorpus :
    JDIndex.ingestChunks (fun _ => .error ())
        [⟨true, [⟨.pstr [97], .pstr [98]⟩]⟩] = .ok [] ∧
    JDIndex.buildFromCsv 5000 (fun t => [t]) (fun _ _ => 1) (fun _ _ _ => ⟨[], [], []⟩)
        (fun _ => .error ()) [⟨true, [⟨.pstr [97], .pstr [98]⟩]⟩] =
      .error .emptyVocabulary ∧
    BuildErr.emptyVocabulary ≠ BuildErr.emptyCorpus :=
  ⟨rfl, rfl, by decide⟩

/-- Count of a kept element is unchanged by filtering to a containing
set. -/
theorem count_filter_mem (toks : List PyStr) (v : List PyStr) (tok : PyStr)
    (h : tok ∈ v) :
    (toks.filter fun x => decide (x ∈ v)).count tok = toks.count tok := by
  induction toks with
  | nil => rfl
  | cons a as ih =>
    by_cases ha : a ∈ v
    · simp [List.count_cons, List.filter_cons, ha, ih]
    · have hne : ¬ (a = tok) := fun e => ha (e ▸ h)
      simp [List.count_cons, List.filter_cons, ha, ih, hne]

/-- C9: query-time calls are pure readers of the fitted state: the
state-passing embeddings of `query` and `match_role` hand back the input
state unchanged (in particular the fitted vectorizer, with its
vocabulary and IDF state, is identical after any number of queries), and
the TF-IDF projection gives out-of-vocabulary tokens zero weight: the
weight vector of a token stream equals that of the stream with every
out-of-vocabulary token removed, so no token outside the frozen
vocabulary contributes. -/
theorem c9_query_state_frozen (st : JDIndexState) (sig : ℚ → ℚ) (t : PyStr)
    (k : Nat) (fv : FittedVectorizer) (toks : List PyStr) :
    (JDIndex.queryS st t k).2 = st ∧
    (JDIndex.matchRoleS sig st t).2 = st ∧
    ((JDIndex.queryS st t k).2).vectorizer = st.vectorizer ∧
    tfWeights fv toks = tfWeights fv (toks.filter fun tok => decide (tok ∈ fv.vocab)) := by
  refine ⟨rfl, rfl, rfl, ?_⟩
  unfold tfWeights
  refine List.map_congr_left fun p hp => ?_
  have hmem : p.1 ∈ fv.vocab := (List.of_mem_zip hp).1
  rw [count_filter_mem toks fv.vocab p.1 hmem]

/-- Collecting the per-chunk results equals filtering to the chunks that
have both required columns and taking each one's surviving rows. -/
theorem filterMap_processChunk (d : Detector) (chunks : List Chunk) :
    chunks.filterMap (JDIndex.processChunk d) =
      (chunks.filter (·.hasRequired)).map (JDIndex.chunkSurvivors d) := by
  induction chunks with
  | nil => rfl
  | cons c cs ih =>
    by_cases hc : c.hasRequired = true
    · simp [JDIndex.processChunk, hc, List.filter_cons, List.filterMap_cons, ih]
    · simp [JDIndex.processChunk, hc, List.filter_cons, List.filterMap_cons, ih]

/-- C7: a chunk missing a required column is skipped entirely (it
contributes nothing to the ingested table); a chunk having both columns
contributes exactly those rows whose cleaned `job_position` and
`relevant_skills` both pass the language filter; and the ingested table
is the in-order concatenation of the surviving chunks. -/
theorem c7_ingest_chunk_semantics (d : Detector) (chunks : List Chunk)
    (h : ∃ c ∈ chunks, c.hasRequired = true) :
    JDIndex.ingestChunks d chunks =
      .ok ((chunks.filter (·.hasRequired)).map (JDIndex.chunkSurvivors d)).flatten ∧
    ∀ c : Chunk, ∀ r : CleanRow,
      r ∈ JDIndex.chunkSurvivors d c ↔
        ∃ r0 ∈ c.rows, r = JDIndex.cleanRow r0 ∧
          JDIndex.isEnglish d r.job_position = true ∧
          JDIndex.isEnglish d r.relevant_skills = true := by
  constructor
  · unfold JDIndex.ingestChunks
    rw [filterMap_processChunk]
    obtain ⟨c, hcm, hreq⟩ := h
    have hmem : JDIndex.chunkSurvivors d c ∈
        (chunks.filter (·.hasRequired)).map (JDIndex.chunkSurvivors d) :=
      List.mem_map_of_mem _ (List.mem_filter.mpr ⟨hcm, by simpa using hreq⟩)
    have hne : ((chunks.filter (·.hasRequired)).map (JDIndex.chunkSurvivors d)).isEmpty =
        false := by
      rcases hempty : (chunks.filter (·.hasRequired)).map (JDIndex.chunkSurvivors d) with
        _ | ⟨a, as⟩
      · rw [hempty] at hmem; cases hmem
      · rw [hempty]; rfl
    simp [hne]
  · intro c r
    constructor
    · intro hr
      rcases List.mem_filter.mp hr with ⟨hmm, hpred⟩
      rcases List.mem_map.mp hmm with ⟨r0, hr0, hclean⟩
      rw [Bool.and_eq_true] at hpred
      obtain ⟨h1, h2⟩ := hpred
      exact ⟨r0, hr0, hclean.symm, h1, h2⟩
    · rintro ⟨r0, hr0, rfl, h1, h2⟩
      exact List.mem_filter.mpr
        ⟨List.mem_map_of_mem _ hr0, by simp [h1, h2]⟩

/-- Witness for C7: a skipped chunk missing a column, then a kept chunk
in which the first row passes the filter and the second (whose label
cell is a non-string, cleaning to the empty string on which the detector
fails) is dropped. -/
theorem c7_ingest_chunk_semantics_witness :
    (∃ c ∈ ([⟨false, [⟨.pstr [120], .pstr [121]⟩]⟩,
             ⟨true, [⟨.pstr [97], .pstr [98]⟩, ⟨.other 0, .pstr [99]⟩]⟩] : List Chunk),
      c.hasRequired = true) ∧
    JDIndex.ingestChunks
        (fun s => if s = [] then .error () else .ok enCode)
        [⟨false, [⟨.pstr [120], .pstr [121]⟩]⟩,
         ⟨true, [⟨.pstr [97], .pstr [98]⟩, ⟨.other 0, .pstr [99]⟩]⟩] =
      .ok [⟨[97], [98]⟩] := by
  have h : ∃ c ∈ ([⟨false, [⟨.pstr [120], .pstr [121]⟩]⟩,
      ⟨true, [⟨.pstr [97], .pstr [98]⟩, ⟨.other 0, .pstr [99]⟩]⟩] : List Chunk),
      c.hasRequired = true :=
    ⟨⟨true, [⟨.pstr [97], .pstr [98]⟩, ⟨.other 0, .pstr [99]⟩]⟩, by simp, rfl⟩
  refine ⟨h, ?_⟩
  rw [(c7_ingest_chunk_semantics
    (fun s => if s = [] then .error () else .ok enCode) _ h).1]
  rfl

/-- Sum of a constant-mapped list. -/
theorem list_sum_map_const (l : List ℚ) (c : ℚ) :
    (l.map fun _ => c).sum = (l.length : ℚ) * c := by
  induction l with
  | nil => simp
  | cons a as ih => simp [ih]; ring

/-- Sum of an elementwise division. -/
theorem list_sum_map_div (l : List ℚ) (s : ℚ) :
    (l.map (· / s)).sum = l.sum / s := by
  induction l with
  | nil => simp
  | cons a as ih => simp [ih, add_div]

/-- Length of a probability row: one entry per learned class. -/
theorem predictProba_length (sig : ℚ → ℚ) (clf : SGDClf) (x : List ℚ)
    (hw : clf.weights.length = clf.classes.length)
    (hb : clf.intercepts.length = clf.classes.length) :
    (predictProba sig clf x).length = clf.classes.length := by
  unfold predictProba
  dsimp only
  split <;> simp [decisionFunction, hw, hb]

/-- C5: for every fitted classifier (per-class weights and intercepts
aligned with a nonempty class list) and every input row, including the
all-zero document vector of an entirely out-of-vocabulary query,
`predict_proba` is total and returns exactly `len(classes_)` entries,
all non-negative, summing to exactly 1. -/
theorem c5_predictProba_valid (sig : ℚ → ℚ) (clf : SGDClf) (x : List ℚ)
    (hsig : ∀ q : ℚ, 0 ≤ sig q)
    (hw : clf.weights.length = clf.classes.length)
    (hb : clf.intercepts.length = clf.classes.length)
    (hne : clf.classes ≠ []) :
    (predictProba sig clf x).length = clf.classes.length ∧
    (∀ q ∈ predictProba sig clf x, 0 ≤ q) ∧
    (predictProba sig clf x).sum = 1 := by
  have hpn : ∀ q ∈ (decisionFunction clf x).map sig, 0 ≤ q := by
    intro q hq
    rcases List.mem_map.mp hq with ⟨y, _, rfl⟩
    exact hsig y
  have hn0 : (clf.classes.length : ℚ) ≠ 0 := by
    have hpos : 0 < clf.classes.length := List.length_pos.mpr hne
    exact_mod_cast Nat.pos_iff_ne_zero.mp hpos
  refine ⟨predictProba_length sig clf x hw hb, ?_, ?_⟩
  · intro q hq
    unfold predictProba at hq
    by_cases hz : ((decisionFunction clf x).map sig).sum = 0
    · rw [if_pos hz] at hq
      rcases List.mem_map.mp hq with ⟨y, hy, rfl⟩
      have : (0:ℚ) ≤ (clf.classes.length : ℚ) := by positivity
      positivity
    · rw [if_neg hz] at hq
      rcases List.mem_map.mp hq with ⟨a, ha, rfl⟩
      have hs : 0 < ((decisionFunction clf x).map sig).sum :=
        lt_of_le_of_ne (List.sum_nonneg hpn) (Ne.symm hz)
      exact div_nonneg (hpn a ha) hs.le
  · unfold predictProba
    by_cases hz : ((decisionFunction clf x).map sig).sum = 0
    · rw [if_pos hz, list_sum_map_const]
      have hlen : ((decisionFunction clf x).map sig).length = clf.classes.length := by
        simp [decisionFunction, hw, hb]
      rw [hlen]
      field_simp
    · rw [if_neg hz, list_sum_map_div, div_self hz]

/-- Witness for C5 on a concrete one-class classifier, evaluated at the
all-zero document vector with the zero squashing function, which
exercises the uniform corner-case branch. -/
theorem c5_predictProba_valid_witness :
    (predictProba (fun _ => 0) ⟨[[107]], [[0]], [0]⟩ [0]).length = 1 ∧
    (∀ q ∈ predictProba (fun _ => 0) ⟨[[107]], [[0]], [0]⟩ [0], 0 ≤ q) ∧
    (predictProba (fun _ => 0) ⟨[[107]], [[0]], [0]⟩ [0]).sum = 1 :=
  c5_predictProba_valid (fun _ => 0) ⟨[[107]], [[0]], [0]⟩ [0]
    (fun _ => le_refl 0) rfl rfl (by decide)

/-- Invariant of the first-maximum scan: the result is either the
accumulator or a position inside the remaining list holding the result
value, the result value dominates the accumulator value, and it
dominates every remaining entry. -/
theorem argmaxAux_spec (qs : List ℚ) : ∀ (i : Nat) (acc : Nat × ℚ),
    (argmaxAux qs i acc = acc ∨
      ∃ j, j < qs.length ∧ argmaxAux qs i acc = (i + j, qs.getD j 0)) ∧
    acc.2 ≤ (argmaxAux qs i acc).2 ∧
    ∀ q ∈ qs, q ≤ (argmaxAux qs i acc).2 := by
  induction qs with
  | nil => intro i acc; exact ⟨Or.inl rfl, le_refl _, by simp⟩
  | cons q qs ih =>
    intro i acc
    by_cases hlt : acc.2 < q
    · have hstep : argmaxAux (q :: qs) i acc = argmaxAux qs (i + 1) (i, q) := by
        simp [argmaxAux, hlt]
      obtain ⟨hpos, hge, hmax⟩ := ih (i + 1) (i, q)
      refine ⟨?_, ?_, ?_⟩
      · right
        rcases hpos with heq | ⟨j, hj, heq⟩
        · exact ⟨0, by simp, by rw [hstep, heq]; simp⟩
        · refine ⟨j + 1, by simpa using Nat.succ_lt_succ hj, ?_⟩
          rw [hstep, heq]
          refine Prod.ext (by simp; omega) (by simp)
      · rw [hstep]; exact le_trans (le_of_lt hlt) hge
      · intro x hx
        rw [hstep]
        rcases List.mem_cons.mp hx with rfl | hmem
        · exact hge
        · exact hmax x hmem
    · have hstep : argmaxAux (q :: qs) i acc = argmaxAux qs (i + 1) acc := by
        simp [argmaxAux, hlt]
      obtain ⟨hpos, hge, hmax⟩ := ih (i + 1) acc
      refine ⟨?_, ?_, ?_⟩
      · rcases hpos with heq | ⟨j, hj, heq⟩
        · exact Or.inl (by rw [hstep, heq])
        · right
          refine ⟨j + 1, by simpa using Nat.succ_lt_succ hj, ?_⟩
          rw [hstep, heq]
          refine Prod.ext (by simp; omega) (by simp)
      · rw [hstep]; exact hge
      · intro x hx
        rw [hstep]
        rcases List.mem_cons.mp hx with rfl | hmem
        · exact le_trans (not_lt.mp hlt) hge
        · exact hmax x hmem

/-- Correctness of `np.argmax` on a nonempty list: the returned index is
in range, the entry there is the scanned maximum value, and that value
dominates every entry. -/
theorem argmax_spec (l : List ℚ) (h : l ≠ []) :
    argmax l < l.length ∧
    l.getD (argmax l) 0 = (argmaxPair l).2 ∧
    ∀ q ∈ l, q ≤ (argmaxPair l).2 := by
  match l, h with
  | q :: qs, _ =>
    obtain ⟨hpos, hge, hmax⟩ := argmaxAux_spec qs 1 (0, q)
    have hun : argmaxPair (q :: qs) = argmaxAux qs 1 (0, q) := rfl
    unfold argmax
    rw [hun]
    refine ⟨?_, ?_, ?_⟩
    · rcases hpos with heq | ⟨j, hj, heq⟩
      · rw [heq]; simp
      · rw [heq]; simp; omega
    · rcases hpos with heq | ⟨j, hj, heq⟩
      · rw [heq]; simp
      · rw [heq]
        have : 1 + j = j + 1 := by omega
        simp [this]
    · intro x hx
      rcases List.mem_cons.mp hx with rfl | hmem
      · exact hge
      · exact hmax x hmem

/-- C4: on a state carrying a fitted vectorizer and a fitted classifier
(as any built or loaded index does), `match_role` succeeds and returns
the label at the argmax position of the probability row together with
that winning probability; the label is drawn from the classifier's
learned `classes_`, never a novel one, and the returned confidence
dominates every entry of the probability row. -/
theorem c4_matchRole_label_closure (sig : ℚ → ℚ) (st : JDIndexState) (t : PyStr)
    (fv : FittedVectorizer) (clf : SGDClf)
    (hv : st.vectorizer = some fv)
    (hc : st.role_match_clf = some clf)
    (hw : clf.weights.length = clf.classes.length)
    (hb : clf.intercepts.length = clf.classes.length)
    (hne : clf.classes ≠ []) :
    ∃ lbl conf,
      JDIndex.matchRoleE sig st t = .ok (lbl, conf) ∧
      lbl ∈ clf.classes ∧
      lbl = clf.classes.getD (argmax (predictProba sig clf (transform fv t))) [] ∧
      conf = (predictProba sig clf (transform fv t)).getD
        (argmax (predictProba sig clf (transform fv t))) 0 ∧
      ∀ q ∈ predictProba sig clf (transform fv t), q ≤ conf := by
  have hlen : (predictProba sig clf (transform fv t)).length = clf.classes.length :=
    predictProba_length sig clf (transform fv t) hw hb
  have hpne : predictProba sig clf (transform fv t) ≠ [] := by
    intro hnil
    rw [hnil] at hlen
    exact hne (List.length_eq_zero.mp hlen.symm)
  obtain ⟨hlt, hgd, hmax⟩ := argmax_spec (predictProba sig clf (transform fv t)) hpne
  have hrun : JDIndex.matchRoleE sig st t =
      .ok (clf.classes.getD (argmax (predictProba sig clf (transform fv t))) [],
           (predictProba sig clf (transform fv t)).getD
             (argmax (predictProba sig clf (transform fv t))) 0) := by
    have hie : (predictProba sig clf (transform fv t)).isEmpty = false := by
      rcases hpp : predictProba sig clf (transform fv t) with _ | ⟨a, as⟩
      · exact absurd hpp hpne
      · rfl
    unfold JDIndex.matchRoleE
    rw [hv, hc]
    show (if (predictProba sig clf (transform fv t)).isEmpty = true then
        Except.error PyErr.valueError
      else
        Except.ok (clf.classes.getD (argmax (predictProba sig clf (transform fv t))) [],
          (predictProba sig clf (transform fv t)).getD
            (argmax (predictProba sig clf (transform fv t))) 0)) = _
    rw [hie]
    simp
  refine ⟨_, _, hrun, ?_, rfl, rfl, ?_⟩
  · have hlt2 : argmax (predictProba sig clf (transform fv t)) < clf.classes.length :=
      hlen ▸ hlt
    rw [List.getD_eq_getElem _ _ hlt2]
    exact List.getElem_mem hlt2
  · intro x hx
    rw [hgd]
    exact hmax x hx

/-- Witness for C4 on a concrete one-class built state. -/
theorem c4_matchRole_label_closure_witness :
    JDIndex.matchRoleE (fun _ => 1/2)
      ⟨5000, some ⟨[[97]], [1], fun s => [s]⟩, some ⟨[[107]], [[1]], [0]⟩,
       some [[1]], some [[1]], some [[107]], some [[107]]⟩ [97] = .ok ([107], 1) := by
  obtain ⟨lbl, conf, hrun, hmem, hlbl, hconf, hmax⟩ :=
    c4_matchRole_label_closure (fun _ => 1/2)
      ⟨5000, some ⟨[[97]], [1], fun s => [s]⟩, some ⟨[[107]], [[1]], [0]⟩,
       some [[1]], some [[1]], some [[107]], some [[107]]⟩ [97]
      ⟨[[97]], [1], fun s => [s]⟩ ⟨[[107]], [[1]], [0]⟩ rfl rfl rfl rfl (by decide)
  rw [hrun, hlbl, hconf]
  norm_num [transform, tfWeights, predictProba, decisionFunction, dot, argmax, argmaxPair, argmaxAux]

/-- C6: save-then-load roundtrip.  Loading, into a fresh instance, the
artifact bundle written from a built state (fitted vectorizer and
classifier, dense matrix equal to the vectors stored in the flat index,
aligned label array) reproduces the exact `query` and `match_role`
results of the in-memory instance for every query text, every k and
every squashing function — bit-for-bit in the exact rational model. -/
theorem c6_save_load_roundtrip (st : JDIndexState) (fv : FittedVectorizer)
    (clf : SGDClf) (xd : List (List ℚ)) (y : List PyStr) (cs : List PyStr)
    (mf : Nat) (sig : ℚ → ℚ) (t : PyStr) (k : Nat)
    (hv : st.vectorizer = some fv) (hc : st.role_match_clf = some clf)
    (_hx : st.X_dense = some xd) (hy : st.y_positions = some y)
    (hi : st.index = some xd) :
    JDIndex.queryE
        (JDIndex.loadState (JDIndex.init mf) (JDIndex.saveArtifacts fv clf xd y cs)) t k =
      JDIndex.queryE st t k ∧
    JDIndex.matchRoleE sig
        (JDIndex.loadState (JDIndex.init mf) (JDIndex.saveArtifacts fv clf xd y cs)) t =
      JDIndex.matchRoleE sig st t := by
  constructor
  · unfold JDIndex.queryE
    rw [hv, hi, hy]
    rfl
  · unfold JDIndex.matchRoleE
    rw [hv, hc]
    rfl

/-- Witness for C6 on a concrete one-row built state, with the roundtrip
result also evaluated. -/
theorem c6_save_load_roundtrip_witness :
    (JDIndex.queryE
        (JDIndex.loadState (JDIndex.init 5000)
          (JDIndex.saveArtifacts ⟨[[97]], [1], fun s => [s]⟩ ⟨[[107]], [[1]], [0]⟩
            [[1]] [[107]] [[107]]))
        [97] 1 =
      JDIndex.queryE
        ⟨5000, some ⟨[[97]], [1], fun s => [s]⟩, some ⟨[[107]], [[1]], [0]⟩,
         some [[1]], some [[1]], some [[107]], some [[107]]⟩ [97] 1) ∧
    JDIndex.queryE
        ⟨5000, some ⟨[[97]], [1], fun s => [s]⟩, some ⟨[[107]], [[1]], [0]⟩,
         some [[1]], some [[1]], some [[107]], some [[107]]⟩ [97] 1 =
      .ok [([107], 0)] := by
  constructor
  · exact (c6_save_load_roundtrip
      ⟨5000, some ⟨[[97]], [1], fun s => [s]⟩, some ⟨[[107]], [[1]], [0]⟩,
       some [[1]], some [[1]], some [[107]], some [[107]]⟩
      ⟨[[97]], [1], fun s => [s]⟩ ⟨[[107]], [[1]], [0]⟩ [[1]] [[107]] [[107]]
      5000 (fun _ => 1/2) [97] 1 rfl rfl rfl rfl rfl).1
  · norm_num [JDIndex.queryE, transform, tfWeights, faissSearch, l2sq,
      List.insertionSort, List.orderedInsert, List.mapM, List.mapM.loop,
      Bind.bind, Except.bind, Pure.pure, Except.pure]

/-- C3: for every stored corpus, query vector and k of at least 1, the
flat search underlying `query` returns exactly min(k, corpusSize) hits;
each hit pairs an in-range row index with the squared L2 distance from
the query to that row; the returned indices are pairwise distinct; the
hits are ordered by non-decreasing distance with ties broken by the
original row order; and every stored row not among the hits ranks no
better than any returned hit (the hits are the k nearest). -/
theorem c3_search_ordering (xb : List (List ℚ)) (q : List ℚ) (k : Nat)
    (_hk : 1 ≤ k) :
    (faissSearch xb q k).length = min k xb.length ∧
    List.Pairwise rankLe (faissSearch xb q k) ∧
    (∀ p ∈ faissSearch xb q k, p.1 < xb.length ∧ p.2 = l2sq q (xb.getD p.1 [])) ∧
    ((faissSearch xb q k).map Prod.fst).Nodup ∧
    (∀ j, j < xb.length → (∀ p ∈ faissSearch xb q k, p.1 ≠ j) →
      ∀ p ∈ faissSearch xb q k, rankLe p (j, l2sq q (xb.getD j []))) := by
  have hperm : List.Perm (List.insertionSort rankLe ((xb.enum).map fun p => (p.1, l2sq q p.2)))
      ((xb.enum).map fun p => (p.1, l2sq q p.2)) :=
    List.perm_insertionSort rankLe _
  have hsorted : List.Sorted rankLe
      (List.insertionSort rankLe ((xb.enum).map fun p => (p.1, l2sq q p.2))) :=
    List.sorted_insertionSort rankLe _
  have hlenS : (List.insertionSort rankLe ((xb.enum).map fun p => (p.1, l2sq q p.2))).length =
      xb.length := by
    rw [hperm.length_eq]; simp
  refine ⟨?_, ?_, ?_, ?_, ?_⟩
  · rw [faissSearch, List.length_take, hlenS]
  · rw [faissSearch]
    exact List.Pairwise.sublist (List.take_sublist k _) hsorted
  · intro p hp
    rw [faissSearch] at hp
    have hpS := List.mem_of_mem_take hp
    have hpb := hperm.mem_iff.mp hpS
    rcases List.mem_map.mp hpb with ⟨pr, hpr, rfl⟩
    have h1 := List.mem_enum_iff_getElem?.mp hpr
    obtain ⟨hlt, hget⟩ := List.getElem?_eq_some.mp h1
    refine ⟨hlt, ?_⟩
    have hgd : xb.getD pr.1 [] = pr.2 := by
      rw [List.getD_eq_getElem?_getD, h1]; rfl
    rw [hgd]
  · rw [faissSearch]
    have hmapS : ((List.insertionSort rankLe
        ((xb.enum).map fun p => (p.1, l2sq q p.2))).map Prod.fst).Nodup := by
      have hpm := hperm.map Prod.fst
      have hbm : ((xb.enum).map fun p => (p.1, l2sq q p.2)).map Prod.fst =
          xb.enum.map Prod.fst := by
        rw [List.map_map]; rfl
      rw [hbm, List.enum_map_fst] at hpm
      exact hpm.nodup_iff.mpr (List.nodup_range _)
    exact hmapS.sublist ((List.take_sublist k _).map Prod.fst)
  · intro j hj hnot p hp
    rw [faissSearch] at hnot hp
    have hjb : (j, l2sq q (xb.getD j [])) ∈ (xb.enum).map fun p => (p.1, l2sq q p.2) := by
      refine List.mem_map.mpr ⟨(j, xb.getD j []), ?_, rfl⟩
      apply List.mem_enum_iff_getElem?.mpr
      rw [List.getD_eq_getElem _ _ hj]
      exact List.getElem?_eq_getElem hj
    have hjS := hperm.mem_iff.mpr hjb
    have hjsplit : (j, l2sq q (xb.getD j [])) ∈
        (List.insertionSort rankLe ((xb.enum).map fun p => (p.1, l2sq q p.2))).take k ++
        (List.insertionSort rankLe ((xb.enum).map fun p => (p.1, l2sq q p.2))).drop k := by
      rw [List.take_append_drop]; exact hjS
    rcases List.mem_append.mp hjsplit with hin | hdrop
    · exact absurd (rfl : (j, l2sq q (xb.getD j [])).1 = j) (hnot _ hin)
    · have hpw : List.Pairwise rankLe
          ((List.insertionSort rankLe ((xb.enum).map fun p => (p.1, l2sq q p.2))).take k ++
           (List.insertionSort rankLe ((xb.enum).map fun p => (p.1, l2sq q p.2))).drop k) := by
        rw [List.take_append_drop]; exact hsorted
      exact (List.pairwise_append.mp hpw).2.2 p hp _ hdrop

/-- Witness for C3 on a two-row corpus with k equal to 1, with the
search result also evaluated. -/
theorem c3_search_ordering_witness :
    1 ≤ 1 ∧ (faissSearch [[(0:ℚ)], [1]] [0] 1).length = min 1 2 ∧
    faissSearch [[(0:ℚ)], [1]] [0] 1 = [(0, 0)] := by
  refine ⟨by norm_num, ?_, ?_⟩
  · exact (c3_search_ordering [[(0:ℚ)], [1]] [0] 1 (by norm_num)).1
  · norm_num [faissSearch, l2sq, List.insertionSort, List.orderedInsert, rankLe,
      List.enum, List.enumFrom]
